import Mathlib

/-!
Shallow embedding of the dataset-building stage of the repository
(`dataset.py`): the train/validation split over the manifest, the
per-segment pipeline driver, filename sanitization and naming, the
manifest flush, and the decibel conversion of the mel spectrogram.

Modelling conventions:
* Python strings are `List Char`; `str.split(sep)` for a one-character
  separator is `pySplit`, `str.strip()` is `pyStrip`.
* Python floats used for times and ratios are modelled as rationals `ℚ`
  (exact arithmetic); the spectrogram values are modelled as reals `ℝ`.
* Fallible Python code (exceptions) returns `Option`: `none` means the
  call raised before producing its outputs.
* The external stages (ffmpeg transcode, librosa decode, `np.save`) are
  modelled by an oracle `StageFault` saying which stage, if any, raises
  for a given segment; the driver's control flow around the oracle is
  embedded exactly.
-/

namespace HifiDataset

/-- The ASCII whitespace characters removed by Python `str.strip()`. -/
def pyIsSpace (c : Char) : Bool :=
  c = ' ' || c = '\t' || c = '\n' || c = '\r' || c = '\x0B' || c = '\x0C'

/-- Python `str.strip()` on a string modelled as a character list. -/
def pyStrip (s : List Char) : List Char :=
  ((s.dropWhile pyIsSpace).reverse.dropWhile pyIsSpace).reverse

/-- Python `str.split(sep)` for a one-character separator: splits at every
occurrence, keeps empty parts, and always yields at least one part. -/
def pySplit (sep : Char) : List Char → List (List Char)
  | [] => [[]]
  | c :: cs =>
    if c = sep then [] :: pySplit sep cs
    else
      match pySplit sep cs with
      | [] => [[c]]
      | p :: ps => (c :: p) :: ps

/-- Model of `sanitize_filename` from `dataset.py`:
`"".join(c if c.isalnum() or c in ('_', '-') else '_' for c in filename)`.
Python's `str.isalnum` is Unicode-aware; the model uses the ASCII
alphanumeric predicate `Char.isAlphanum`, the only case the pipeline's
filenames exercise. -/
def sanitize_filename (s : List Char) : List Char :=
  s.map (fun c => if c.isAlphanum || c = '_' || c = '-' then c else '_')

/-- The decimal digit character for `d % 10`. -/
def digitChar (d : ℕ) : Char := Char.ofNat (48 + d % 10)

/-- Fuel-driven decimal rendering accumulator (digits of `n` before `ds`). -/
def natToDigitsAux : ℕ → ℕ → List Char → List Char
  | 0, _, ds => ds
  | fuel + 1, n, ds =>
    if n / 10 = 0 then digitChar n :: ds
    else natToDigitsAux fuel (n / 10) (digitChar n :: ds)

/-- Python `str(n)` for a natural number: its decimal digits. -/
def natToDigits (n : ℕ) : List Char := natToDigitsAux (n + 1) n []

/-- Python `f-string` formatting with `:03d`: decimal digits left-padded
with zeros to width at least 3. -/
def format03 (n : ℕ) : List Char :=
  List.replicate (3 - (natToDigits n).length) '0' ++ natToDigits n

/-! ### The dataset splitter: `create_training_and_validation_files` -/

/-- Base-name extraction from the left path of a manifest line:
`left_path.split('/')[-1].split('.')[0]`.  `pySplit` never returns an
empty list, so the defaults of `getLastD` / `headD` are never used. -/
def extractBase (leftPath : List Char) : List Char :=
  ((pySplit '.' ((pySplit '/' leftPath).getLastD [])).headD [])

/-- One manifest line: `left_path, right_path = line.split('|')`.
Tuple unpacking succeeds iff the split has exactly two parts, i.e. the
line contains exactly one delimiter; otherwise the statement raises,
modelled by `none`. -/
def parseLine (line : List Char) : Option (List Char × List Char) :=
  match pySplit '|' line with
  | [l, r] => some (l, r)
  | _ => none

/-- Model of `f.read().strip().split('\n')`: the manifest's lines. -/
def readLines (content : List Char) : List (List Char) :=
  pySplit '\n' (pyStrip content)

/-- The loop over manifest lines: extract each line's base name, raising
(`none`) at any line that does not unpack into exactly two fields. -/
def extractBases : List (List Char) → Option (List (List Char))
  | [] => some []
  | line :: rest =>
    match parseLine line with
    | none => none
    | some lr =>
      match extractBases rest with
      | none => none
      | some bs => some (extractBase lr.1 :: bs)

/-- Reading and parsing the whole manifest file into base identifiers. -/
def parseManifest (content : List Char) : Option (List (List Char)) :=
  extractBases (readLines content)

/-- Model of `split_index = int(len(data) * train_ratio)`: for the nonnegative
products the function is used with, Python `int()` truncation is the
floor.  (Negative ratios, where Python slicing semantics would differ,
are outside every use and every claim.) -/
def splitIndex (n : ℕ) (r : ℚ) : ℕ := (⌊(n : ℚ) * r⌋).toNat

/-- Model of `data[:split_index]` and `data[split_index:]` of the shuffled list. -/
def splitData (shuffled : List (List Char)) (r : ℚ) :
    List (List Char) × List (List Char) :=
  (shuffled.take (splitIndex shuffled.length r),
   shuffled.drop (splitIndex shuffled.length r))

/-- Model of `create_training_and_validation_files` from `dataset.py`.  Here `shuffle`
stands for the unseeded in-place `random.shuffle`; theorems constrain it
to be a permutation.  The result is `none` when the function raises
before writing, and `some (training_data, validation_data)` gives the id
lists written (one per line) to the two output files. -/
def create_training_and_validation_files
    (shuffle : List (List Char) → List (List Char))
    (content : List Char) (r : ℚ) :
    Option (List (List Char) × List (List Char)) :=
  match parseManifest content with
  | none => none
  | some data => some (splitData (shuffle data) r)

/-! ### The pipeline driver: `main` of `dataset.py` -/

/-- One annotation segment as read from the JSON list.  Each field is
optional because the driver reads it with `segment.get(key, default)`. -/
structure Segment where
  text : Option (List Char) := none
  start : Option ℚ := none
  duration : Option ℚ := none
  deriving DecidableEq

/-- Oracle for the outcome of the external per-segment stages: which of
ffmpeg transcoding (`convert_and_slice_audio`), mel extraction
(`extract_mel_spectrogram`) or `np.save` raises, if any. -/
inductive StageFault where
  | transcodeFail
  | extractFail
  | saveFail
  | ok
  deriving DecidableEq

/-- Everything one segment's processing produced: the `(start, duration)`
pair passed to ffmpeg if it was invoked, the clip file written, the mel
file written, and the metadata line appended. -/
structure SegResult where
  call : Option (ℚ × ℚ)
  clip : Option (List Char)
  mel : Option (List Char)
  entry : Option (List Char)
  deriving DecidableEq

/-- The result of a segment that was skipped: nothing invoked, nothing
written, nothing recorded. -/
def skippedResult : SegResult := ⟨none, none, none, none⟩

def segLit : List Char := "_segment_".data

def wavExt : List Char := ".wav".data

def npyExt : List Char := ".npy".data

def melDir : List Char := "hifi_gan_dataset/mel/".data

def audioDir : List Char := "hifi_gan_dataset/audio/".data

/-- Model of `f"{sanitized_base}_segment_{idx:03d}"`, the shared stem of a
segment's artifact names. -/
def nameStem (base : List Char) (idx : ℕ) : List Char :=
  sanitize_filename base ++ segLit ++ format03 idx

/-- The clip filename `f"{sanitized_base}_segment_{idx:03d}.wav"`. -/
def clipFilename (base : List Char) (idx : ℕ) : List Char :=
  nameStem base idx ++ wavExt

/-- The mel filename `f"{sanitized_base}_segment_{idx:03d}.npy"`. -/
def melFilename (base : List Char) (idx : ℕ) : List Char :=
  nameStem base idx ++ npyExt

/-- The metadata line
`f"hifi_gan_dataset/mel/{mel_filename}|hifi_gan_dataset/audio/{segment_filename}"`. -/
def metadataEntry (base : List Char) (idx : ℕ) : List Char :=
  melDir ++ melFilename base idx ++ ('|' :: audioDir) ++ clipFilename base idx

/-- The body of the driver's per-segment loop (`dataset.py` lines
222-269): read `start` and `duration` with defaults `0.0`, skip when
`duration <= 0`, otherwise run transcode → extract → save → record,
abandoning the segment at the first stage that raises. -/
def processSegment (base : List Char) (idx : ℕ) (fault : StageFault)
    (seg : Segment) : SegResult :=
  let s := seg.start.getD 0
  let d := seg.duration.getD 0
  if d ≤ 0 then skippedResult
  else
    match fault with
    | .transcodeFail => ⟨some (s, d), none, none, none⟩
    | .extractFail => ⟨some (s, d), some (clipFilename base idx), none, none⟩
    | .saveFail => ⟨some (s, d), some (clipFilename base idx), none, none⟩
    | .ok =>
      ⟨some (s, d), some (clipFilename base idx), some (melFilename base idx),
        some (metadataEntry base idx)⟩

/-- Model of `for idx, segment in enumerate(json_data, start=1)`, carrying the
1-based index. -/
def processSegsFrom (base : List Char) (fault : ℕ → StageFault) :
    ℕ → List Segment → List SegResult
  | _, [] => []
  | idx, seg :: rest =>
    processSegment base idx (fault idx) seg ::
      processSegsFrom base fault (idx + 1) rest

/-- Processing one recording's whole annotation list, indices from 1. -/
def processRecording (base : List Char) (fault : ℕ → StageFault)
    (segs : List Segment) : List SegResult :=
  processSegsFrom base fault 1 segs

/-- One recording with a matching annotation file: its (sanitizable)
base name and its segments in file order. -/
structure Recording where
  base : List Char
  segs : List Segment
  deriving DecidableEq

/-- The outer loop over recordings, results concatenated in recording
order; `fault ri si` is the stage oracle of segment `si` of recording
`ri` (both 1-based). -/
def runPipeline (fault : ℕ → ℕ → StageFault) : ℕ → List Recording → List SegResult
  | _, [] => []
  | ri, rec :: rest =>
    processRecording rec.base (fault ri) rec.segs ++ runPipeline fault (ri + 1) rest

/-- Model of `metadata_entries`: the manifest lines accumulated by the run, in
accumulation order (recording order × segment order). -/
def collectEntries (results : List SegResult) : List (List Char) :=
  results.filterMap (fun res => res.entry)

/-- The manifest lines of a whole run. -/
def runEntries (fault : ℕ → ℕ → StageFault) (recs : List Recording) :
    List (List Char) :=
  collectEntries (runPipeline fault 1 recs)

/-- Model of `for entry in metadata_entries: meta_file.write(entry + "\n")`:
the byte content written to `metadata.csv`. -/
def flushManifest (entries : List (List Char)) : List Char :=
  entries.foldl (fun acc e => acc ++ e ++ ['\n']) []

/-- Model of `open(path, 'w')` semantics: the new content replaces whatever the
file held before. -/
def writeTruncating (_old new : List Char) : List Char := new

/-- How many segments of one recording complete all three stages:
positive duration and no stage fault. -/
def completedCount (fault : ℕ → StageFault) : ℕ → List Segment → ℕ
  | _, [] => 0
  | idx, seg :: rest =>
    (if 0 < seg.duration.getD 0 ∧ fault idx = StageFault.ok then 1 else 0)
      + completedCount fault (idx + 1) rest

/-- How many segments complete all three stages across the whole run. -/
def totalCompleted (fault : ℕ → ℕ → StageFault) : ℕ → List Recording → ℕ
  | _, [] => 0
  | ri, rec :: rest =>
    completedCount (fault ri) 1 rec.segs + totalCompleted fault (ri + 1) rest

/-! ### The decibel conversion of `extract_mel_spectrogram` -/

/-- Model of `np.max` over the (flattened, nonempty) array; the empty case is
unreachable in the pipeline and given the junk value 0. -/
noncomputable def npMax : List ℝ → ℝ
  | [] => 0
  | x :: xs => xs.foldl max x

/-- Model of `librosa.power_to_db(mel, ref=np.max)` with librosa's defaults
`amin=1e-10`, `top_db=80.0`:
`log_spec = 10*log10(max(amin, S)) - 10*log10(max(amin, ref_value))`
followed by `np.maximum(log_spec, log_spec.max() - top_db)`, where
`ref_value = np.max(S)`.  The 2-D array is modelled flattened, since
every operation is elementwise or a global maximum. -/
noncomputable def power_to_db (S : List ℝ) : List ℝ :=
  let amin : ℝ := 1 / 10 ^ 10
  let refValue := npMax S
  let logSpec := S.map fun x =>
    10 * Real.logb 10 (max amin x) - 10 * Real.logb 10 (max amin refValue)
  logSpec.map fun x => max x (npMax logSpec - 80)

/-- Model of `extract_mel_spectrogram` from `dataset.py`: `librosa.load` and
`librosa.feature.melspectrogram` are external DSP producing a magnitude
mel spectrogram `S` (entries are nonnegative reals); the function's own
arithmetic is the `power_to_db` conversion, embedded exactly. -/
noncomputable def extract_mel_spectrogram (S : List ℝ) : List ℝ := power_to_db S

/-- The recording stem of the naming scenario. -/
def speakerBase : List Char := "speaker_2_interview".data

/-- The annotation list of the naming scenario: segment durations
5.0, -1.0 and 3.2 seconds. -/
def scenarioSegs : List Segment :=
  [{ start := some 0, duration := some 5 },
   { start := some 0, duration := some (-1) },
   { start := some 0, duration := some (16/5) }]

/-! ### Helper lemmas about splitting strings -/

theorem pySplit_ne_nil (sep : Char) (s : List Char) : pySplit sep s ≠ [] := by
  induction s with
  | nil => simp [pySplit]
  | cons c cs ih =>
    by_cases h : c = sep
    · simp [pySplit, h]
    · cases hrec : pySplit sep cs with
      | nil => exact absurd hrec ih
      | cons p ps => simp [pySplit, h, hrec]

theorem pySplit_length (sep : Char) (s : List Char) :
    (pySplit sep s).length = s.count sep + 1 := by
  induction s with
  | nil => simp [pySplit]
  | cons c cs ih =>
    by_cases h : c = sep
    · subst h
      simp [pySplit, List.count_cons, ih]
    · cases hrec : pySplit sep cs with
      | nil => exact absurd hrec (pySplit_ne_nil sep cs)
      | cons p ps =>
        rw [hrec] at ih
        simp only [List.length_cons] at ih
        simp [pySplit, h, hrec, List.count_cons, Ne.symm h]
        omega

theorem parseLine_eq_none (line : List Char)
    (h : (pySplit '|' line).length ≠ 2) : parseLine line = none := by
  unfold parseLine
  rcases hs : pySplit '|' line with _ | ⟨a, _ | ⟨b, _ | ⟨c, t⟩⟩⟩
  · rfl
  · rfl
  · exact absurd (by simp [hs]) h
  · rfl

theorem extractBases_eq_none {lines : List (List Char)} {line : List Char}
    (hmem : line ∈ lines) (hline : parseLine line = none) :
    extractBases lines = none := by
  induction lines with
  | nil => cases hmem
  | cons hd tl ih =>
    rcases List.mem_cons.mp hmem with h | h
    · subst h
      unfold extractBases
      rw [hline]

    · unfold extractBases
      cases hp : parseLine hd with
      | none => rfl
      | some lr => rw [ih h]

theorem extractBases_length {lines bs : List (List Char)}
    (h : extractBases lines = some bs) : bs.length = lines.length := by
  induction lines generalizing bs with
  | nil =>
    simp only [extractBases, Option.some.injEq] at h
    subst h
    rfl
  | cons hd tl ih =>
    unfold extractBases at h
    cases hp : parseLine hd with
    | none => rw [hp] at h; cases h
    | some lr =>
      rw [hp] at h
      cases he : extractBases tl with
      | none => rw [he] at h; cases h
      | some bs' =>
        rw [he] at h
        cases h
        simp [ih he]

theorem splitIndex_le (n : ℕ) (r : ℚ) (h1 : r ≤ 1) : splitIndex n r ≤ n := by
  unfold splitIndex
  have hle : ((n : ℚ)) * r ≤ (n : ℚ) := by
    calc ((n : ℚ)) * r ≤ ((n : ℚ)) * 1 :=
      mul_le_mul_of_nonneg_left h1 (by positivity)
    _ = (n : ℚ) := mul_one _
  have : ⌊((n : ℚ)) * r⌋ ≤ (n : ℤ) := by
    calc ⌊((n : ℚ)) * r⌋ ≤ ⌊(n : ℚ)⌋ := Int.floor_le_floor hle
    _ = (n : ℤ) := by exact_mod_cast Int.floor_natCast n
  exact_mod_cast Int.toNat_le.mpr this

/-! ### The split claims -/

/-- Claim C2: for every manifest that parses into base identifiers `data`
and every ratio in (0,1), the split succeeds and partitions the full
identifier list: training ++ validation is a permutation of `data`, and
the two parts are disjoint when the identifiers are distinct. -/
theorem C2_split_is_partition
    (shuffle : List (List Char) → List (List Char))
    (content : List Char) (r : ℚ) (data : List (List Char))
    (hdata : parseManifest content = some data)
    (hperm : (shuffle data).Perm data)
    (h0 : 0 < r) (h1 : r < 1) :
    ∃ t v, create_training_and_validation_files shuffle content r = some (t, v) ∧
      (t ++ v).Perm data ∧ (data.Nodup → t.Disjoint v) := by
  refine ⟨(splitData (shuffle data) r).1, (splitData (shuffle data) r).2, ?_, ?_, ?_⟩
  · unfold create_training_and_validation_files
    rw [hdata]
  · unfold splitData
    simp only
    rw [List.take_append_drop]
    exact hperm
  · intro hnd
    have hnd' : (shuffle data).Nodup := hperm.nodup_iff.mpr hnd
    exact List.disjoint_take_drop hnd' le_rfl

/-- Witness for C2 at a concrete two-line manifest, identity shuffle,
ratio 1/2. -/
theorem C2_witness :
    ∃ t v, create_training_and_validation_files id
        (String.data "m/a.npy|a/a.wav\nm/b.npy|a/b.wav") (1/2) = some (t, v) ∧
      (t ++ v).Perm [['a'], ['b']] ∧ ([['a'], ['b']].Nodup → t.Disjoint v) :=
  C2_split_is_partition id (String.data "m/a.npy|a/a.wav\nm/b.npy|a/b.wav")
    (1/2) [['a'], ['b']] (by decide) (List.Perm.refl _) (by norm_num) (by norm_num)

/-- Claim C3: the split yields exactly `floor(N * ratio)` training ids and
`N - floor(N * ratio)` validation ids; scenario instances: 10 entries at
ratio 9/10 give 9 and 1, while 1 entry gives 0 and 1. -/
theorem C3_split_sizes :
    (∀ (shuffle : List (List Char) → List (List Char))
      (content : List Char) (r : ℚ) (data : List (List Char)),
      parseManifest content = some data → (shuffle data).Perm data →
      0 < r → r < 1 →
      ∃ t v, create_training_and_validation_files shuffle content r = some (t, v) ∧
        t.length = splitIndex data.length r ∧
        v.length = data.length - splitIndex data.length r)
    ∧ (∀ l : List (List Char), l.length = 10 →
        (splitData l (9/10)).1.length = 9 ∧ (splitData l (9/10)).2.length = 1)
    ∧ (∀ l : List (List Char), l.length = 1 →
        (splitData l (9/10)).1.length = 0 ∧ (splitData l (9/10)).2.length = 1) := by
  have hsplit10 : splitIndex 10 (9/10) = 9 := by
    unfold splitIndex
    norm_num
    rfl
  have hsplit1 : splitIndex 1 (9/10) = 0 := by
    unfold splitIndex
    rw [Nat.cast_one, one_mul,
      Int.floor_eq_zero_iff.mpr (by rw [Set.mem_Ico]; constructor <;> norm_num)]
    rfl
  refine ⟨?_, ?_, ?_⟩
  · intro shuffle content r data hdata hperm h0 h1
    refine ⟨(splitData (shuffle data) r).1, (splitData (shuffle data) r).2, ?_, ?_, ?_⟩
    · unfold create_training_and_validation_files
      rw [hdata]
    · unfold splitData
      simp only [List.length_take, hperm.length_eq]
      exact Nat.min_eq_left (splitIndex_le data.length r (le_of_lt h1))
    · unfold splitData
      simp only [List.length_drop, hperm.length_eq]
  · intro l hl
    unfold splitData
    rw [hl, hsplit10]
    constructor
    · simp [List.length_take, hl]
    · simp [List.length_drop, hl]
  · intro l hl
    unfold splitData
    rw [hl, hsplit1]
    constructor
    · simp [List.length_take]
    · simp [List.length_drop, hl]

/-- Witness for C3 at the same concrete manifest: 2 entries at ratio 1/2
give floor(2 * 1/2) = 1 training id and 1 validation id. -/
theorem C3_witness :
    ∃ t v, create_training_and_validation_files id
        (String.data "m/a.npy|a/a.wav\nm/b.npy|a/b.wav") (1/2) = some (t, v) ∧
      t.length = splitIndex 2 (1/2) ∧ v.length = 2 - splitIndex 2 (1/2) :=
  C3_split_sizes.1 id (String.data "m/a.npy|a/a.wav\nm/b.npy|a/b.wav")
    (1/2) [['a'], ['b']] (by decide) (List.Perm.refl _) (by norm_num) (by norm_num)

/-- Claim C7: the split raises when any manifest line lacks the delimiter,
and on a manifest resolving to zero entries (empty after stripping); yet a
manifest with a single well-formed entry still yields valid partitions
(empty training list, the entry in validation) instead of failing. -/
theorem C7_split_failure_boundary
    (shuffle : List (List Char) → List (List Char))
    (content : List Char) (r : ℚ) :
    ((∃ line ∈ readLines content, parseLine line = none) →
      create_training_and_validation_files shuffle content r = none)
    ∧ (pyStrip content = [] →
      create_training_and_validation_files shuffle content r = none)
    ∧ (∀ data, parseManifest content = some data → (shuffle data).Perm data →
        data.length < 2 → 0 < r → r < 1 →
        create_training_and_validation_files shuffle content r =
          some ([], shuffle data)) := by
  refine ⟨?_, ?_, ?_⟩
  · rintro ⟨line, hmem, hline⟩
    unfold create_training_and_validation_files parseManifest
    rw [extractBases_eq_none hmem hline]
  · intro hstrip
    have h0 : readLines content = [[]] := by
      unfold readLines
      rw [hstrip]
      rfl
    have hnone : extractBases (readLines content) = none :=
      extractBases_eq_none
        (show ([] : List Char) ∈ readLines content by
          rw [h0]; exact List.mem_singleton.mpr rfl) rfl
    unfold create_training_and_validation_files parseManifest
    rw [hnone]
  · intro data hdata hperm hlt h0 h1
    have hpos : 0 < data.length := by
      have hlen : data.length = (readLines content).length :=
        extractBases_length hdata
      rw [hlen]
      exact List.length_pos.mpr (pySplit_ne_nil '\n' (pyStrip content))
    have hone : data.length = 1 := by omega
    have hzero : splitIndex (shuffle data).length r = 0 := by
      rw [hperm.length_eq, hone]
      unfold splitIndex
      rw [Nat.cast_one, one_mul, Int.floor_eq_zero_iff.mpr
        (by constructor <;> [exact le_of_lt h0; exact h1])]
      rfl
    have hcreate : create_training_and_validation_files shuffle content r =
        some (splitData (shuffle data) r) := by
      unfold create_training_and_validation_files
      rw [hdata]
    rw [hcreate]
    unfold splitData
    rw [hzero]
    simp

/-- Witness for C7 at a manifest line without any delimiter. -/
theorem C7_witness :
    create_training_and_validation_files id (String.data "abc") (1/2) = none :=
  (C7_split_failure_boundary id (String.data "abc") (1/2)).1 (by decide)

/-- Claim C10: a manifest line containing more than one delimiter also
makes the split raise (tuple unpacking needs exactly two fields), before
either output file is written; concretely so for a well-delimited entry
followed by a second delimiter and extra field. -/
theorem C10_second_delimiter_fails
    (shuffle : List (List Char) → List (List Char))
    (content : List Char) (r : ℚ) :
    ((∃ line ∈ readLines content, 2 ≤ line.count '|') →
      create_training_and_validation_files shuffle content r = none)
    ∧ create_training_and_validation_files shuffle
        (String.data "hifi_gan_dataset/mel/a.npy|hifi_gan_dataset/audio/a.wav|x")
        r = none := by
  have gen : ∀ c : List Char, (∃ line ∈ readLines c, 2 ≤ line.count '|') →
      create_training_and_validation_files shuffle c r = none := by
    intro c hex
    rcases hex with ⟨line, hmem, hcount⟩
    have hne : (pySplit '|' line).length ≠ 2 := by
      rw [pySplit_length]
      omega
    unfold create_training_and_validation_files parseManifest
    rw [extractBases_eq_none hmem (parseLine_eq_none line hne)]
  exact ⟨gen content, gen _ (by decide)⟩

/-- Witness for C10 at a line with two delimiters. -/
theorem C10_witness :
    create_training_and_validation_files id (String.data "a|b|c") (1/2) = none :=
  (C10_second_delimiter_fails id (String.data "a|b|c") (1/2)).1 (by decide)

/-! ### Helper lemmas about the driver -/

theorem processSegment_eq_skipped {base : List Char} {idx : ℕ} {fault : StageFault}
    {seg : Segment} (h : seg.duration.getD 0 ≤ 0) :
    processSegment base idx fault seg = skippedResult := by
  simp only [processSegment]
  rw [if_pos h]

theorem processSegment_pos {base : List Char} {idx : ℕ} (fault : StageFault)
    {seg : Segment} (h : 0 < seg.duration.getD 0) :
    processSegment base idx fault seg =
      match fault with
      | .transcodeFail =>
        ⟨some (seg.start.getD 0, seg.duration.getD 0), none, none, none⟩
      | .extractFail =>
        ⟨some (seg.start.getD 0, seg.duration.getD 0),
          some (clipFilename base idx), none, none⟩
      | .saveFail =>
        ⟨some (seg.start.getD 0, seg.duration.getD 0),
          some (clipFilename base idx), none, none⟩
      | .ok =>
        ⟨some (seg.start.getD 0, seg.duration.getD 0),
          some (clipFilename base idx), some (melFilename base idx),
          some (metadataEntry base idx)⟩ := by
  simp only [processSegment]
  rw [if_neg (not_le.mpr h)]

theorem processSegment_clip {base : List Char} {idx : ℕ} {fault : StageFault}
    {seg : Segment} {e : List Char}
    (h : (processSegment base idx fault seg).clip = some e) :
    e = clipFilename base idx := by
  by_cases hd : seg.duration.getD 0 ≤ 0
  · rw [processSegment_eq_skipped hd] at h
    cases h
  · rw [processSegment_pos fault (lt_of_not_le hd)] at h
    cases fault <;> simp at h <;> exact h.symm

theorem processSegment_entry {base : List Char} {idx : ℕ} {fault : StageFault}
    {seg : Segment} {e : List Char}
    (h : (processSegment base idx fault seg).entry = some e) :
    e = metadataEntry base idx := by
  by_cases hd : seg.duration.getD 0 ≤ 0
  · rw [processSegment_eq_skipped hd] at h
    cases h
  · rw [processSegment_pos fault (lt_of_not_le hd)] at h
    cases fault <;> simp at h <;> exact h.symm

theorem processSegment_entry_eq (base : List Char) (idx : ℕ) (fault : StageFault)
    (seg : Segment) :
    (processSegment base idx fault seg).entry =
      if 0 < seg.duration.getD 0 ∧ fault = StageFault.ok
      then some (metadataEntry base idx) else none := by
  by_cases hd : seg.duration.getD 0 ≤ 0
  · rw [processSegment_eq_skipped hd, if_neg]
    · rfl
    · rintro ⟨h1, _⟩
      exact absurd hd (not_le.mpr h1)
  · rw [processSegment_pos fault (lt_of_not_le hd)]
    cases fault <;> simp [lt_of_not_le hd]

theorem processSegment_call {base : List Char} {idx : ℕ} (fault : StageFault)
    {seg : Segment} (h : 0 < seg.duration.getD 0) :
    (processSegment base idx fault seg).call =
      some (seg.start.getD 0, seg.duration.getD 0) := by
  rw [processSegment_pos fault h]
  cases fault <;> rfl

theorem processSegsFrom_get? (base : List Char) (fault : ℕ → StageFault)
    (segs : List Segment) (i q : ℕ) :
    (processSegsFrom base fault i segs).get? q =
      (segs.get? q).map (fun seg => processSegment base (i + q) (fault (i + q)) seg) := by
  induction segs generalizing i q with
  | nil => simp [processSegsFrom]
  | cons s rest ih =>
    cases q with
    | zero => simp [processSegsFrom]
    | succ j =>
      have hidx : i + 1 + j = i + (j + 1) := by omega
      simp only [processSegsFrom, List.get?_cons_succ]
      rw [ih (i + 1) j, hidx]

/-! ### The driver claims -/

/-- Claim C1: a segment whose duration field (default 0.0) is ≤ 0 is
skipped entirely — no ffmpeg call, no clip file, no feature file, no
manifest entry — and every position's result depends only on its own
segment, so the recording's other segments are processed exactly as they
would be on their own. -/
theorem C1_invalid_duration_skipped (base : List Char) (fault : ℕ → StageFault)
    (segs : List Segment) (p : ℕ) (seg : Segment)
    (hp : segs.get? p = some seg) (hdur : seg.duration.getD 0 ≤ 0) :
    (processRecording base fault segs).get? p = some skippedResult ∧
    ∀ q seg', segs.get? q = some seg' →
      (processRecording base fault segs).get? q =
        some (processSegment base (q + 1) (fault (q + 1)) seg') := by
  constructor
  · simp only [processRecording]
    rw [processSegsFrom_get?, hp, Option.map_some']
    rw [processSegment_eq_skipped hdur]
  · intro q seg' hq
    simp only [processRecording]
    rw [processSegsFrom_get?, hq, Option.map_some', Nat.add_comm 1 q]

/-- Witness for C1: a two-segment recording whose first segment has
duration -1 is skipped at position 0. -/
theorem C1_witness :
    (processRecording [] (fun _ => StageFault.ok)
      [{ duration := some (-1) }, { start := some 2, duration := some 3 }]).get? 0 =
      some skippedResult :=
  (C1_invalid_duration_skipped [] (fun _ => StageFault.ok)
    [{ duration := some (-1) }, { start := some 2, duration := some 3 }] 0
    { duration := some (-1) } rfl (by norm_num)).1

/-- Claim C9: a segment object without a duration key gets the default
0.0 and is therefore skipped as invalid (no call, clip, feature file or
manifest entry), the other segments being processed normally; a missing
start key defaults to 0.0 in the ffmpeg invocation instead of failing. -/
theorem C9_missing_keys_default (base : List Char) (fault : ℕ → StageFault)
    (segs : List Segment) (p : ℕ) (seg : Segment)
    (hp : segs.get? p = some seg) :
    (seg.duration = none →
      (processRecording base fault segs).get? p = some skippedResult)
    ∧ (∀ d : ℚ, seg.start = none → seg.duration = some d → 0 < d →
        ∃ res, (processRecording base fault segs).get? p = some res ∧
          res.call = some (0, d))
    ∧ (∀ q seg', segs.get? q = some seg' →
        (processRecording base fault segs).get? q =
          some (processSegment base (q + 1) (fault (q + 1)) seg')) := by
  refine ⟨?_, ?_, ?_⟩
  · intro hdur
    simp only [processRecording]
    rw [processSegsFrom_get?, hp, Option.map_some']
    rw [processSegment_eq_skipped (by rw [hdur]; norm_num)]
  · intro d hstart hdur hd
    refine ⟨processSegment base (1 + p) (fault (1 + p)) seg, ?_, ?_⟩
    · simp only [processRecording]
      rw [processSegsFrom_get?, hp, Option.map_some']
    · rw [processSegment_call (fault (1 + p)) (by rw [hdur]; simpa using hd)]
      rw [hstart, hdur]
      rfl
  · intro q seg' hq
    simp only [processRecording]
    rw [processSegsFrom_get?, hq, Option.map_some', Nat.add_comm 1 q]

/-- Witness for C9: the empty segment object (no keys at all) is skipped. -/
theorem C9_witness :
    (processRecording [] (fun _ => StageFault.ok) [({} : Segment)]).get? 0 =
      some skippedResult :=
  ((C9_missing_keys_default [] (fun _ => StageFault.ok) [({} : Segment)] 0 {}
    rfl).1) rfl

/-- Claim C4: every clip produced for the segment at 1-based position
`p+1` of a recording is named `{sanitized_stem}_segment_{p+1:03d}.wav`,
the index not being renumbered after skipped segments; the scenario with
durations [5.0, -1.0, 3.2] yields clips ..._segment_001.wav and
..._segment_003.wav with the middle segment producing nothing. -/
theorem C4_clip_naming :
    (∀ (base : List Char) (fault : ℕ → StageFault) (segs : List Segment)
      (p : ℕ) (seg : Segment) (res : SegResult) (e : List Char),
      segs.get? p = some seg →
      (processRecording base fault segs).get? p = some res →
      res.clip = some e → e = clipFilename base (p + 1))
    ∧ (processRecording speakerBase (fun _ => StageFault.ok) scenarioSegs).map
        (fun res => res.clip) =
      [some (String.data "speaker_2_interview_segment_001.wav"), none,
        some (String.data "speaker_2_interview_segment_003.wav")] := by
  constructor
  · intro base fault segs p seg res e hp hres hclip
    simp only [processRecording] at hres
    rw [processSegsFrom_get?, hp, Option.map_some'] at hres
    have hres' : res = processSegment base (1 + p) (fault (1 + p)) seg :=
      (Option.some.inj hres).symm
    subst hres'
    have hname := processSegment_clip hclip
    rw [hname, Nat.add_comm 1 p]
  · have e1 : processSegment speakerBase 1 StageFault.ok
        ({ start := some 0, duration := some 5 } : Segment) =
        ⟨some (0, 5), some (clipFilename speakerBase 1),
          some (melFilename speakerBase 1), some (metadataEntry speakerBase 1)⟩ := by
      rw [processSegment_pos StageFault.ok (by norm_num)]
      rfl
    have e2 : processSegment speakerBase 2 StageFault.ok
        ({ start := some 0, duration := some (-1) } : Segment) = skippedResult :=
      processSegment_eq_skipped (by norm_num)
    have e3 : processSegment speakerBase 3 StageFault.ok
        ({ start := some 0, duration := some (16/5) } : Segment) =
        ⟨some (0, 16/5), some (clipFilename speakerBase 3),
          some (melFilename speakerBase 3), some (metadataEntry speakerBase 3)⟩ := by
      rw [processSegment_pos StageFault.ok (by norm_num)]
      rfl
    simp only [processRecording, scenarioSegs, processSegsFrom, List.map_cons,
      List.map_nil, e1, e2, e3]
    decide

/-- Witness for C4: the first scenario segment's clip name, via the
naming theorem at position 0. -/
theorem C4_witness :
    String.data "speaker_2_interview_segment_001.wav" =
      clipFilename speakerBase (0 + 1) :=
  C4_clip_naming.1 speakerBase (fun _ => StageFault.ok) scenarioSegs 0
    { start := some 0, duration := some 5 }
    (processSegment speakerBase 1 StageFault.ok
      { start := some 0, duration := some 5 })
    (String.data "speaker_2_interview_segment_001.wav") rfl rfl (by decide)

/-! ### Helper lemmas about the manifest flush -/

theorem digitChar_ne_newline (d : ℕ) : digitChar d ≠ '\n' := by
  unfold digitChar
  have h : d % 10 < 10 := Nat.mod_lt d (by norm_num)
  generalize hk : d % 10 = k at h ⊢
  interval_cases k <;> decide

theorem mem_natToDigitsAux {fuel n : ℕ} {ds : List Char} {c : Char}
    (hc : c ∈ natToDigitsAux fuel n ds) : c ∈ ds ∨ ∃ d, c = digitChar d := by
  induction fuel generalizing n ds with
  | zero => exact Or.inl hc
  | succ fuel ih =>
    simp only [natToDigitsAux] at hc
    split at hc
    · rcases List.mem_cons.mp hc with h | h
      · exact Or.inr ⟨n, h⟩
      · exact Or.inl h
    · rcases ih hc with h | h
      · rcases List.mem_cons.mp h with h2 | h2
        · exact Or.inr ⟨n, h2⟩
        · exact Or.inl h2
      · exact Or.inr h

theorem format03_no_newline (n : ℕ) : '\n' ∉ format03 n := by
  intro h
  unfold format03 at h
  rcases List.mem_append.mp h with h | h
  · exact absurd (List.eq_of_mem_replicate h) (by decide)
  · rcases mem_natToDigitsAux (show '\n' ∈ natToDigitsAux (n + 1) n [] from h) with h2 | h2
    · cases h2
    · rcases h2 with ⟨d, hd⟩
      exact digitChar_ne_newline d hd.symm

theorem mem_sanitize {s : List Char} {c : Char} (hc : c ∈ sanitize_filename s) :
    (c.isAlphanum || c = '_' || c = '-') = true := by
  unfold sanitize_filename at hc
  rcases List.mem_map.mp hc with ⟨c', _, hc'⟩
  by_cases h : (c'.isAlphanum || c' = '_' || c' = '-') = true
  · rw [if_pos h] at hc'
    subst hc'
    exact h
  · rw [if_neg h] at hc'
    subst hc'
    decide

theorem nameStem_no_newline (b : List Char) (i : ℕ) : '\n' ∉ nameStem b i := by
  intro h
  unfold nameStem at h
  rcases List.mem_append.mp h with h | h
  · rcases List.mem_append.mp h with h | h
    · exact absurd (mem_sanitize h) (by decide)
    · exact absurd h (by decide)
  · exact format03_no_newline i h

theorem metadataEntry_no_newline (b : List Char) (i : ℕ) :
    '\n' ∉ metadataEntry b i := by
  intro h
  unfold metadataEntry melFilename clipFilename at h
  rcases List.mem_append.mp h with h | h
  · rcases List.mem_append.mp h with h | h
    · rcases List.mem_append.mp h with h | h
      · exact absurd h (by decide)
      · rcases List.mem_append.mp h with h | h
        · exact nameStem_no_newline b i h
        · exact absurd h (by decide)
    · rcases List.mem_cons.mp h with h2 | h2
      · exact absurd h2 (by decide)
      · exact absurd h2 (by decide)
  · rcases List.mem_append.mp h with h | h
    · exact nameStem_no_newline b i h
    · exact absurd h (by decide)

theorem mem_processSegsFrom {base : List Char} {fault : ℕ → StageFault}
    {i : ℕ} {segs : List Segment} {res : SegResult}
    (h : res ∈ processSegsFrom base fault i segs) :
    ∃ idx seg, res = processSegment base idx (fault idx) seg := by
  induction segs generalizing i with
  | nil => cases h
  | cons s rest ih =>
    rcases List.mem_cons.mp h with h | h
    · exact ⟨i, s, h⟩
    · exact ih h

theorem mem_runPipeline {fault : ℕ → ℕ → StageFault} {ri : ℕ}
    {recs : List Recording} {res : SegResult}
    (h : res ∈ runPipeline fault ri recs) :
    ∃ b idx ft seg, res = processSegment b idx ft seg := by
  induction recs generalizing ri with
  | nil => cases h
  | cons rc rest ih =>
    simp only [runPipeline, processRecording] at h
    rcases List.mem_append.mp h with h | h
    · rcases mem_processSegsFrom h with ⟨idx, seg, hres⟩
      exact ⟨rc.base, idx, fault ri idx, seg, hres⟩
    · exact ih h

theorem runEntries_shape {fault : ℕ → ℕ → StageFault} {recs : List Recording}
    {e : List Char} (h : e ∈ runEntries fault recs) :
    ∃ b idx, e = metadataEntry b idx := by
  unfold runEntries collectEntries at h
  rcases List.mem_filterMap.mp h with ⟨res, hres, hent⟩
  rcases mem_runPipeline hres with ⟨b, idx, ft, seg, rfl⟩
  exact ⟨b, idx, processSegment_entry hent⟩

theorem flush_foldl_acc (acc : List Char) (es : List (List Char)) :
    es.foldl (fun a e => a ++ e ++ ['\n']) acc =
      acc ++ es.foldl (fun a e => a ++ e ++ ['\n']) [] := by
  induction es generalizing acc with
  | nil => simp
  | cons e rest ih =>
    simp only [List.foldl_cons]
    rw [ih (acc ++ e ++ ['\n']), ih ([] ++ e ++ ['\n'])]
    simp [List.append_assoc]

theorem flushManifest_cons (e : List Char) (es : List (List Char)) :
    flushManifest (e :: es) = e ++ '\n' :: flushManifest es := by
  unfold flushManifest
  simp only [List.foldl_cons]
  rw [flush_foldl_acc]
  simp

theorem pySplit_newline_append (e rest : List Char) (he : '\n' ∉ e) :
    pySplit '\n' (e ++ '\n' :: rest) = e :: pySplit '\n' rest := by
  induction e with
  | nil => simp [pySplit]
  | cons c cs ih =>
    have hc : ¬ c = '\n' := fun hh => he (hh ▸ List.mem_cons_self c cs)
    have ih' := ih (fun hh => he (List.mem_cons_of_mem c hh))
    rw [List.cons_append]
    simp only [pySplit, if_neg hc]
    rw [ih']

theorem pySplit_flushManifest {entries : List (List Char)}
    (h : ∀ e ∈ entries, '\n' ∉ e) :
    pySplit '\n' (flushManifest entries) = entries ++ [[]] := by
  induction entries with
  | nil => rfl
  | cons e rest ih =>
    rw [flushManifest_cons,
      pySplit_newline_append e _ (h e (List.mem_cons_self e rest)),
      ih (fun x hx => h x (List.mem_cons_of_mem e hx))]
    rfl

theorem entries_length_segs (base : List Char) (fault : ℕ → StageFault)
    (segs : List Segment) (i : ℕ) :
    ((processSegsFrom base fault i segs).filterMap (fun res => res.entry)).length =
      completedCount fault i segs := by
  induction segs generalizing i with
  | nil => rfl
  | cons s rest ih =>
    simp only [processSegsFrom, completedCount]
    by_cases hc : 0 < s.duration.getD 0 ∧ fault i = StageFault.ok
    · have hent : (processSegment base i (fault i) s).entry =
          some (metadataEntry base i) := by
        rw [processSegment_entry_eq, if_pos hc]
      rw [List.filterMap_cons_some hent, if_pos hc]
      simp [ih]
      omega
    · have hent : (processSegment base i (fault i) s).entry = none := by
        rw [processSegment_entry_eq, if_neg hc]
      rw [List.filterMap_cons_none hent, if_neg hc]
      simp [ih]

theorem entries_length_run (fault : ℕ → ℕ → StageFault) (recs : List Recording)
    (ri : ℕ) :
    ((runPipeline fault ri recs).filterMap (fun res => res.entry)).length =
      totalCompleted fault ri recs := by
  induction recs generalizing ri with
  | nil => rfl
  | cons rc rest ih =>
    simp only [runPipeline, totalCompleted, List.filterMap_append,
      List.length_append, processRecording]
    rw [ih, entries_length_segs]

/-! ### The manifest claim -/

/-- Claim C8: flushing writes exactly one newline-terminated
`feature_path|clip_path` line per accumulated entry, in accumulation
order (splitting the written content on the newline gives back exactly
the entry list), truncating any previous file content; the number of
entries equals the number of segments that completed all three stages,
so no line exists for a segment that failed at any earlier stage. -/
theorem C8_manifest_flush (fault : ℕ → ℕ → StageFault) (recs : List Recording) :
    pySplit '\n' (flushManifest (runEntries fault recs)) =
      runEntries fault recs ++ [[]]
    ∧ (∀ e ∈ runEntries fault recs, ∃ stem,
        e = melDir ++ (stem ++ npyExt) ++ ('|' :: audioDir) ++ (stem ++ wavExt))
    ∧ (runEntries fault recs).length = totalCompleted fault 1 recs
    ∧ ∀ old, writeTruncating old (flushManifest (runEntries fault recs)) =
        flushManifest (runEntries fault recs) := by
  refine ⟨?_, ?_, ?_, fun _ => rfl⟩
  · apply pySplit_flushManifest
    intro e he
    rcases runEntries_shape he with ⟨b, idx, rfl⟩
    exact metadataEntry_no_newline b idx
  · intro e he
    rcases runEntries_shape he with ⟨b, idx, rfl⟩
    refine ⟨nameStem b idx, ?_⟩
    simp [metadataEntry, melFilename, clipFilename, List.append_assoc]
  · show ((runPipeline fault 1 recs).filterMap (fun res => res.entry)).length = _
    exact entries_length_run fault recs 1

/-- Witness for C8: the single successful segment of a one-recording run
contributes a manifest line of the required `mel|audio` shape. -/
theorem C8_witness :
    ∃ stem, metadataEntry ['a'] 1 =
      melDir ++ (stem ++ npyExt) ++ ('|' :: audioDir) ++ (stem ++ wavExt) :=
  (C8_manifest_flush (fun _ _ => StageFault.ok)
    [{ base := ['a'], segs := [{ duration := some 1 }] }]).2.1
    (metadataEntry ['a'] 1) (by decide)

/-! ### The sanitization claim -/

theorem sanitize_getD : ∀ (s : List Char) (i : ℕ), i < s.length →
    (sanitize_filename s).getD i ' ' =
      (if (s.getD i ' ').isAlphanum || s.getD i ' ' = '_' || s.getD i ' ' = '-'
       then s.getD i ' ' else '_') := by
  intro s
  induction s with
  | nil =>
    intro i hi
    cases hi
  | cons c cs ih =>
    intro i hi
    cases i with
    | zero => rfl
    | succ j =>
      have h1 : (sanitize_filename (c :: cs)).getD (j + 1) ' ' =
          (sanitize_filename cs).getD j ' ' := by
        simp [sanitize_filename]
      have h2 : (c :: cs).getD (j + 1) ' ' = cs.getD j ' ' := by
        simp
      rw [h1, h2]
      exact ih j (by simpa using hi)

/-- Claim C6: `sanitize_filename` maps each character that is not
alphanumeric, an underscore or a hyphen to an underscore, leaves every
other character unchanged, and preserves the string's length. -/
theorem C6_sanitize_pointwise (s : List Char) :
    (sanitize_filename s).length = s.length ∧
    ∀ i, i < s.length →
      (sanitize_filename s).getD i ' ' =
        (if (s.getD i ' ').isAlphanum || s.getD i ' ' = '_' || s.getD i ' ' = '-'
         then s.getD i ' ' else '_') :=
  ⟨by simp [sanitize_filename], fun i hi => sanitize_getD s i hi⟩

/-- Witness for C6: in "ab c" the space at position 2 becomes an
underscore. -/
theorem C6_witness :
    (sanitize_filename (String.data "ab c")).getD 2 ' ' = '_' := by
  have h := (C6_sanitize_pointwise (String.data "ab c")).2 2 (by decide)
  rw [h]
  decide

/-! ### The decibel-conversion claim -/

theorem le_foldl_max (b : ℝ) (l : List ℝ) : b ≤ l.foldl max b := by
  induction l generalizing b with
  | nil => exact le_refl b
  | cons x xs ih => exact le_trans (le_max_left b x) (ih (max b x))

theorem mem_le_foldl_max {x : ℝ} : ∀ (l : List ℝ) (b : ℝ), x ∈ l → x ≤ l.foldl max b := by
  intro l
  induction l with
  | nil =>
    intro b h
    cases h
  | cons y ys ih =>
    intro b h
    rcases List.mem_cons.mp h with rfl | h'
    · exact le_trans (le_max_right b x) (le_foldl_max (max b x) ys)
    · exact ih (max b y) h'

theorem foldl_max_mem : ∀ (l : List ℝ) (b : ℝ), l.foldl max b ∈ b :: l := by
  intro l
  induction l with
  | nil =>
    intro b
    exact List.mem_singleton.mpr rfl
  | cons y ys ih =>
    intro b
    rw [List.foldl_cons]
    rcases List.mem_cons.mp (ih (max b y)) with h | h
    · rw [h]
      rcases max_choice b y with hb | hb
      · rw [hb]
        exact List.mem_cons_self b (y :: ys)
      · rw [hb]
        exact List.mem_cons_of_mem b (List.mem_cons_self y ys)
    · exact List.mem_cons_of_mem b (List.mem_cons_of_mem y h)

theorem le_npMax {l : List ℝ} {x : ℝ} (h : x ∈ l) : x ≤ npMax l := by
  cases l with
  | nil => cases h
  | cons y ys =>
    show x ≤ ys.foldl max y
    rcases List.mem_cons.mp h with rfl | h'
    · exact le_foldl_max x ys
    · exact mem_le_foldl_max ys y h'

theorem npMax_mem : ∀ {l : List ℝ}, l ≠ [] → npMax l ∈ l := by
  intro l h
  cases l with
  | nil => exact absurd rfl h
  | cons y ys =>
    show ys.foldl max y ∈ y :: ys
    exact foldl_max_mem ys y

/-- Claim C5: because the decibel conversion is referenced to the
spectrogram's own maximum (`ref=np.max`), the feature array produced by
`extract_mel_spectrogram` has maximum value exactly 0 dB for every
(nonempty) extracted clip spectrogram. -/
theorem C5_max_is_zero_db (S : List ℝ) (hS : S ≠ []) :
    npMax (extract_mel_spectrogram S) = 0 := by
  have hamin : (0:ℝ) < 1 / 10 ^ 10 := by norm_num
  set f : ℝ → ℝ := fun x =>
    10 * Real.logb 10 (max (1 / 10 ^ 10) x) -
      10 * Real.logb 10 (max (1 / 10 ^ 10) (npMax S)) with hf
  have hunfold : extract_mel_spectrogram S =
      (S.map f).map fun x => max x (npMax (S.map f) - 80) := by
    simp only [extract_mel_spectrogram, power_to_db, hf]
  have hle : ∀ y ∈ S.map f, y ≤ 0 := by
    intro y hy
    rcases List.mem_map.mp hy with ⟨x, hx, rfl⟩
    have h1 : max (1 / 10 ^ 10) x ≤ max (1 / 10 ^ 10) (npMax S) :=
      max_le_max le_rfl (le_npMax hx)
    have h2 : Real.logb 10 (max (1 / 10 ^ 10) x) ≤
        Real.logb 10 (max (1 / 10 ^ 10) (npMax S)) :=
      Real.logb_le_logb_of_le (by norm_num)
        (lt_of_lt_of_le hamin (le_max_left _ _)) h1
    simp only [hf]
    linarith
  have hzero : (0:ℝ) ∈ S.map f := by
    have hmem := npMax_mem hS
    have hfr : f (npMax S) = 0 := by
      simp only [hf]
      exact sub_self _
    exact hfr ▸ List.mem_map_of_mem f hmem
  have hne : S.map f ≠ [] := by
    intro hc
    exact hS (List.map_eq_nil.mp hc)
  have hmax0 : npMax (S.map f) = 0 :=
    le_antisymm (hle _ (npMax_mem hne)) (le_npMax hzero)
  rw [hunfold]
  have hle2 : ∀ z ∈ (S.map f).map (fun y => max y (npMax (S.map f) - 80)),
      z ≤ 0 := by
    intro z hz
    rcases List.mem_map.mp hz with ⟨y, hy, rfl⟩
    rw [hmax0]
    exact max_le (hle y hy) (by norm_num)
  have hzero2 : (0:ℝ) ∈ (S.map f).map (fun y => max y (npMax (S.map f) - 80)) := by
    have h0 : max (0:ℝ) (npMax (S.map f) - 80) = 0 := by
      rw [hmax0]
      exact max_eq_left (by norm_num)
    exact h0 ▸ List.mem_map_of_mem _ hzero
  have hne2 : (S.map f).map (fun y => max y (npMax (S.map f) - 80)) ≠ [] := by
    intro hc
    exact hne (List.map_eq_nil.mp hc)
  exact le_antisymm (hle2 _ (npMax_mem hne2)) (le_npMax hzero2)

/-- Witness for C5: a one-entry spectrogram converts to maximum 0 dB. -/
theorem C5_witness : npMax (extract_mel_spectrogram [1]) = 0 :=
  C5_max_is_zero_db [1] (by simp)

end HifiDataset
